import Mathlib

/-!
Verification of the checksum registry (`checksums_management.py`) and the
dataset builder (`dataset_builder.py`) of the `datasets` repository.

Strings are embedded as `List Char`; Python dicts keyed by URL are embedded as
insertion-ordered association lists with the exact assignment/update/equality
semantics of Python dicts.  File contents are `List Char`, so "byte-identical"
claims are equalities of character lists.
-/

namespace Datasets

/-! ### Character-list utilities (Python `str.split`, `str.rsplit`, `int`, `str(int)`) -/

/-- `content.split(c)`: split on every occurrence of `c`; `"".split(c) = [""]`. -/
def splitOnChar (c : Char) : List Char → List (List Char)
  | [] => [[]]
  | x :: xs =>
    if x = c then [] :: splitOnChar c xs
    else
      match splitOnChar c xs with
      | [] => [[x]]
      | s :: ss => (x :: s) :: ss

/-- Split at the first occurrence of `c`: `some (before, after)`, neither
including `c`; `none` when `c` does not occur. -/
def splitFirst (c : Char) : List Char → Option (List Char × List Char)
  | [] => none
  | x :: xs =>
    if x = c then some ([], xs)
    else (splitFirst c xs).map (fun p => (x :: p.1, p.2))

/-- Split at the last occurrence of `c` (one step of Python `str.rsplit(c, _)`). -/
def rsplitLast (c : Char) (l : List Char) : Option (List Char × List Char) :=
  (splitFirst c l.reverse).map (fun p => (p.2.reverse, p.1.reverse))

/-- `line.rsplit(' ', 2)` unpacked into exactly three parts, as in
`url, size, checksum = line.rsplit(' ', 2)`; `none` models the `ValueError`
raised when the line holds fewer than two spaces. -/
def rsplit2Space (l : List Char) : Option (List Char × List Char × List Char) :=
  match rsplitLast ' ' l with
  | none => none
  | some (rest, checksum) =>
    match rsplitLast ' ' rest with
    | none => none
    | some (url, size) => some (url, size, checksum)

def isDigitChar (c : Char) : Bool := decide ('0' ≤ c) && decide (c ≤ '9')

def digitVal (c : Char) : Nat := c.toNat - 48

def digitChar : Nat → Char
  | 0 => '0' | 1 => '1' | 2 => '2' | 3 => '3' | 4 => '4'
  | 5 => '5' | 6 => '6' | 7 => '7' | 8 => '8' | _ => '9'

/-- Decimal digits of `n`, most significant first (`'%s' % n` for a
nonnegative Python int).  Fuel-structured so that it evaluates by `decide`;
`fuel = n + 1` always suffices since the argument shrinks by `/ 10`. -/
def natToDigitsAux : Nat → Nat → List Char
  | 0, _ => []
  | fuel + 1, n =>
    if n < 10 then [digitChar n]
    else natToDigitsAux fuel (n / 10) ++ [digitChar (n % 10)]

def natToDigits (n : Nat) : List Char := natToDigitsAux (n + 1) n

def parseDigits : List Char → Nat → Option Nat
  | [], acc => some acc
  | c :: cs, acc =>
    if isDigitChar c then parseDigits cs (acc * 10 + digitVal c) else none

/-- Model of Python `int(s)` restricted to nonempty strings of decimal digits,
the only form this code ever writes for sizes (`'%s' % size` with a
nonnegative size); on anything else it fails like `int` raising `ValueError`.
(Python `int` also tolerates surrounding whitespace, a sign and underscores;
those inputs are not produced nor relied upon here.) -/
def parsePyNat (l : List Char) : Option Nat :=
  if l.isEmpty then none else parseDigits l 0

/-! ### The checksum registry: data model

`Checksums` embeds the Python dict `{url: (size, checksum)}`: an
insertion-ordered association list; `setItem` is `d[k] = v` (replace in place
or append), `dictUpdate` is `d.update(other)`, `dictBeq` is `d1 == d2`. -/

abbrev Url := List Char

abbrev SizeChecksum := Nat × List Char

abbrev Checksums := List (Url × SizeChecksum)

def dlookup (d : Checksums) (u : Url) : Option SizeChecksum :=
  match d with
  | [] => none
  | p :: rest => if p.1 = u then some p.2 else dlookup rest u

/-- Python `d[k] = v`: replace the value of an existing key in place,
otherwise append the new pair at the end. -/
def setItem (d : Checksums) (u : Url) (v : SizeChecksum) : Checksums :=
  match d with
  | [] => [(u, v)]
  | p :: rest => if p.1 = u then (u, v) :: rest else p :: setItem rest u v

/-- Python `d.update(upd)`: assign every pair of `upd`, in order. -/
def dictUpdate (d upd : Checksums) : Checksums :=
  upd.foldl (fun acc p => setItem acc p.1 p.2) d

/-- Python `d1 == d2` on dicts: same keys with the same values. -/
def dictBeq (d1 d2 : Checksums) : Bool :=
  d1.all (fun p => decide (dlookup d2 p.1 = some p.2)) &&
    d2.all (fun p => decide (dlookup d1 p.1 = some p.2))

/-- The keys of a dict are pairwise distinct (true of every genuine Python
dict; association lists built by `setItem` keep it). -/
def keysNodup (d : Checksums) : Prop := (d.map Prod.fst).Nodup

instance (d : Checksums) : Decidable (keysNodup d) := by
  unfold keysNodup
  infer_instance

/-! ### The checksum registry: file format (`checksums_management.py`) -/

/-- One line written by `maybe_store_checksums`:
`f.write('%s %s %s\n' % (url, size, checksum))`. -/
def entryLineCore (url : Url) (size : Nat) (checksum : List Char) : List Char :=
  url ++ ' ' :: natToDigits size ++ ' ' :: checksum

def entryLine (url : Url) (size : Nat) (checksum : List Char) : List Char :=
  entryLineCore url size checksum ++ ['\n']

/-- Lexicographic comparison of char lists by code point, mirroring Python
string comparison as used by `sorted(new_data.items())` (keys are unique in a
dict, so the sort key is the URL). -/
def urlLe : List Char → List Char → Bool
  | [], _ => true
  | _ :: _, [] => false
  | x :: xs, y :: ys => if x = y then urlLe xs ys else decide (x < y)

def entryOrder (a b : Url × SizeChecksum) : Prop := urlLe a.1 b.1 = true

instance : DecidableRel entryOrder := fun _ _ => instDecidableEqBool _ _

/-- The full file body written by `maybe_store_checksums` (lines 138-140):
one `URL size checksum` line per entry, sorted by URL. -/
def serializeChecksums (d : Checksums) : List Char :=
  (List.insertionSort entryOrder d).foldl
    (fun acc p => acc ++ entryLine p.1 p.2.1 p.2.2) []

/-- The per-line loop body of `_get_sizes_checksums` (lines 80-87): skip empty
lines, `rsplit(' ', 2)` each other line into URL, size and checksum, parse the
size, and assign into the dict; `none` models the uncaught `ValueError`s. -/
def parseLinesAux : List (List Char) → Checksums → Option Checksums
  | [], acc => some acc
  | line :: rest, acc =>
    if line.isEmpty then parseLinesAux rest acc
    else
      match rsplit2Space line with
      | none => none
      | some (url, sizeStr, checksum) =>
        match parsePyNat sizeStr with
        | none => none
        | some size => parseLinesAux rest (setItem acc url (size, checksum))

/-- `_get_sizes_checksums(path)` applied to the bytes of the file at `path`:
`{URL: (size, checksum)}` stored within the file. -/
def parseSizesChecksums (content : List Char) : Option Checksums :=
  parseLinesAux (splitOnChar '\n' content) []

/-! ### The checksum registry: operations (`checksums_management.py`) -/

/-- The module-level mutable state touched by the registry: the dataset's
on-disk checksum file, the `utils.memoize()` cache of `_get_sizes_checksums`
for that file, the `_ALL_SIZE_CHECKSUMS` global and the `_REGISTER_CHECKSUMS`
flag. -/
structure RegistryState where
  fileContent : List Char
  memoSizes : Option Checksums
  allSizeChecksums : Checksums
  registerChecksums : Bool
deriving DecidableEq

/-- `_get_sizes_checksums(path)` through its `utils.memoize()` cache: return
the cached parse when present, otherwise parse the file and cache the result.
`none` models the `ValueError` escaping on a malformed file. -/
def readSizesChecksumsMemo (st : RegistryState) : Option (Checksums × RegistryState) :=
  match st.memoSizes with
  | some d => some (d, st)
  | none =>
    match parseSizesChecksums st.fileContent with
    | some d => some (d, { st with memoSizes := some d })
    | none => none

/-- `maybe_store_checksums(dataset_name, sizes_checksums)` (lines 104-140) for
the dataset whose file and memo live in `st`.  Returns the state after the
call together with the raised exception, if any (the state is returned even on
failure: the function raises before touching the file or the global dict). -/
def maybe_store_checksums (st : RegistryState) (sizes_checksums : Checksums) :
    RegistryState × Option String :=
  match readSizesChecksumsMemo st with
  | none => (st, some "ValueError")
  | some (original_data, st1) =>
    let new_data := dictUpdate original_data sizes_checksums
    if dictBeq original_data new_data then (st1, none)
    else if !st1.registerChecksums then
      (st1, some "You must call set_register_checksums(True) first.")
    else
      let st2 := { st1 with
        allSizeChecksums := dictUpdate st1.allSizeChecksums sizes_checksums }
      ({ st2 with fileContent := serializeChecksums new_data }, none)

/-- The per-file conflict scan inside `get_all_sizes_checksums` (lines 95-99):
the first URL of `data` already present in the accumulated global dict with a
different (size, checksum), if any. -/
def findConflict (acc data : Checksums) : Option Url :=
  (data.find? (fun p =>
    match dlookup acc p.1 with
    | some v => decide (v ≠ p.2)
    | none => false)).map Prod.fst

/-- `get_all_sizes_checksums()` (lines 90-101) over the parsed per-dataset
checksum files, folding them into the accumulator `acc` (the
`_ALL_SIZE_CHECKSUMS` global, normally empty at first load): raise on the
first URL registered with two distinct size/checksum tuples, else merge. -/
def get_all_sizes_checksums : List Checksums → Checksums → Except String Checksums
  | [], acc => .ok acc
  | data :: rest, acc =>
    match findConflict acc data with
    | some _ => .error "URL is registered with 2+ distinct size/checksum tuples."
    | none => get_all_sizes_checksums rest (dictUpdate acc data)

/-- No URL is mapped to two distinct values by `d1` and `d2`. -/
def Compat (d1 d2 : Checksums) : Prop :=
  ∀ u v1 v2, dlookup d1 u = some v1 → dlookup d2 u = some v2 → v1 = v2

/-- Entries that survive the write/parse cycle structurally: URLs contain no
newline, checksums contain neither space nor newline. -/
def wfEntries (d : Checksums) : Prop :=
  ∀ p ∈ d, '\n' ∉ p.1 ∧ ' ' ∉ p.2.2 ∧ '\n' ∉ p.2.2

instance (d : Checksums) : Decidable (wfEntries d) := by
  unfold wfEntries
  infer_instance

/-! ### The dataset builder: data model (`dataset_builder.py`) -/

/-- Modelled from the spec: `utils.Version` (the `utils` module is not under
src/) — a three-component semantic version `major.minor.patch` with total
ordering; parsing a directory name fails (`ValueError`) on anything that is
not three dot-separated decimal numbers. -/
structure Version where
  major : Nat
  minor : Nat
  patch : Nat
deriving DecidableEq

def parseVersion (s : String) : Option Version :=
  match splitOnChar '.' s.data with
  | [a, b, c] =>
    match parsePyNat a, parsePyNat b, parsePyNat c with
    | some x, some y, some z => some ⟨x, y, z⟩
    | _, _, _ => none
  | _ => none

def versionString (v : Version) : String :=
  ⟨natToDigits v.major ++ '.' :: natToDigits v.minor ++ '.' :: natToDigits v.patch⟩

/-- Modelled from the spec: the total order on semantic versions
(compare major, then minor, then patch). -/
def versionLe (a b : Version) : Bool :=
  decide (a.major < b.major) ||
    (decide (a.major = b.major) &&
      (decide (a.minor < b.minor) ||
        (decide (a.minor = b.minor) && decide (a.patch ≤ b.patch))))

/-- Descending order on the `(Version, dir_name)` pairs collected by
`_other_versions_on_disk`, mirroring `version_dirnames.sort(reverse=True)`.
(Python breaks version ties by the name string; only the version component of
the selected head is ever read, so ties are irrelevant to the result.) -/
def versionDesc (a b : Version × String) : Prop := versionLe b.1 a.1 = true

instance : DecidableRel versionDesc := fun _ _ => instDecidableEqBool _ _

/-- Filesystem paths are lists of components; the modelled filesystem is the
set of existing directories (`tf.io.gfile.exists` / `listdir`). -/
structure FS where
  dirs : List (List String)

def FS.existsDir (fs : FS) (p : List String) : Bool := fs.dirs.contains p

def configDirs : Option String → List String
  | some c => [c]
  | none => []

/-- Lines 362-375: `version_dirs[0][0]` of the reverse-sorted on-disk
versions, compared against the declared one; `some (other, cur)` models the
`logging.warn` naming both. -/
def otherVersionsWarning (version : Version) :
    List (Version × String) → Option (Version × Version)
  | [] => none
  | (otherVersion, _) :: _ =>
    if otherVersion ≠ version then some (otherVersion, version) else none

/-- `_build_data_dir` (lines 339-377): compute
`root/dataset_name[/config_name]/version`, and warn (returning the pair of
conflicting versions, `(other_version, cur_version)`) when the largest
version parsed from the sibling directory listing differs from the declared
one.  `listing = none` models the builder directory not existing. -/
def build_data_dir (root : List String) (name : String) (config : Option String)
    (version : Version) (listing : Option (List String)) :
    List String × Option (Version × Version) :=
  let builderDataDir := root ++ name :: configDirs config
  let versionDataDir := builderDataDir ++ [versionString version]
  let versionDirnames :=
    (listing.getD []).filterMap (fun d => (parseVersion d).map (fun v => (v, d)))
  (versionDataDir,
    otherVersionsWarning version (List.insertionSort versionDesc versionDirnames))

/-! ### The dataset builder: build pipeline (`dataset_builder.py`) -/

inductive GenerateMode
  | FORCE_REDOWNLOAD
  | REUSE_CACHE_IF_EXISTS
  | REUSE_DATASET_IF_EXISTS
deriving DecidableEq

structure SplitInfo where
  name : String
  num_shards : Nat
deriving DecidableEq

/-- The split registry accumulated during generation. -/
abbrev SplitDict := List SplitInfo

/-- Modelled from the spec: `SplitDict.add` (the `splits` module is not under
src/) inserts a `SplitInfo`, overwriting any previous entry of the same name
(§4.3; the reserved-name check is performed by `_download_and_prepare` before
`add` is ever called). -/
def splitDictAdd (sd : SplitDict) (s : SplitInfo) : SplitDict :=
  match sd with
  | [] => [s]
  | t :: rest => if t.name = s.name then s :: rest else t :: splitDictAdd rest s

/-- Modelled from the spec: `tfds.Split.ALL`, the reserved alias meaning
"union of every declared split" (the `splits` module is not under src/). -/
def ALL_SPLIT : String := "all"

/-- One `tfds.SplitGenerator`: its declared target `SplitInfo`s and the finite
sequence of raw examples the caller-supplied `_generate_examples(**gen_kwargs)`
generator yields. -/
structure SplitGeneratorM (α : Type) where
  split_info_list : List SplitInfo
  examples : List α

/-- The externally visible effects of a build, in order: creation of the
temporary build directory (`file_format_adapter.incomplete_dir`), `makedirs`,
each `write_from_generator` call (the files and the full record sequence
handed to the shard writer), and the final `info.write_to_directory`. -/
inductive DapEvent (β : Type)
  | tempDirCreated
  | makedirs (path : List String)
  | shardWrite (files : List String) (records : List β)
  | metadataWrite
deriving DecidableEq

inductive BuildError
  | overwrite (name : String) (dataDir : List String) (infoVersion : Version)
  | reservedSplit
deriving DecidableEq

/-- Python truthiness of the optional `max_examples_per_split`: `None` and `0`
are falsy, so `if max_examples_per_split and i >= max_examples_per_split`. -/
def pyTruthyNat : Option Nat → Bool
  | none => false
  | some n => n != 0

/-- The `generator_fn` closed over by `make_generator_fn` (lines 632-644):
enumerate the caller's examples, break once the cap is truthy and reached,
and encode each yielded example with the injected feature encoder. -/
def generatorFnAux {α β : Type} (encode : α → β) (maxExamples : Option Nat) :
    Nat → List α → List β
  | _, [] => []
  | i, ex :: rest =>
    if pyTruthyNat maxExamples && decide (i ≥ maxExamples.getD 0) then []
    else encode ex :: generatorFnAux encode maxExamples (i + 1) rest

def generatorFn {α β : Type} (encode : α → β) (maxExamples : Option Nat)
    (examples : List α) : List β :=
  generatorFnAux encode maxExamples 0 examples

/-- Modelled from the spec: `naming.filepaths_for_dataset_split` (the `naming`
module is not under src/) — deterministic shard filenames derived from the
dataset name, split name, shard index, shard count and filetype suffix. -/
def filepathsForDatasetSplit (datasetName split : String) (numShards : Nat)
    (suffix : String) : List String :=
  (List.range numShards).map (fun i =>
    datasetName ++ "-" ++ split ++ "." ++ suffix ++ "-" ++
      (natToDigits i).asString ++ "-of-" ++ (natToDigits numShards).asString)

/-- `_build_split_filenames` (lines 710-734): concatenate the shard filenames
of every `SplitInfo` of the unit. -/
def buildSplitFilenames (datasetName suffix : String)
    (split_info_list : List SplitInfo) : List String :=
  split_info_list.foldl
    (fun acc si =>
      acc ++ filepathsForDatasetSplit datasetName si.name si.num_shards suffix) []

/-- The per-unit split-name loop of `_download_and_prepare` (lines 650-659):
reject the reserved `ALL` alias, otherwise add each split to the dict. -/
def checkAndAddSplits : SplitDict → List SplitInfo → Except BuildError SplitDict
  | sd, [] => .ok sd
  | sd, s :: rest =>
    if s.name = ALL_SPLIT then .error .reservedSplit
    else checkAndAddSplits (splitDictAdd sd s) rest

/-- The generator loop of `GeneratorBasedBuilder._download_and_prepare`
(lines 646-667): per unit, validate and register its splits, then hand the
(capped, encoded) record sequence to the shard writer. -/
def downloadAndPrepareInner {α β : Type} (datasetName suffix : String)
    (encode : α → β) (maxExamples : Option Nat) :
    List (SplitGeneratorM α) → SplitDict → List (DapEvent β) →
    List (DapEvent β) × Except BuildError SplitDict
  | [], sd, evs => (evs, .ok sd)
  | sg :: rest, sd, evs =>
    match checkAndAddSplits sd sg.split_info_list with
    | .error e => (evs, .error e)
    | .ok sd' =>
      downloadAndPrepareInner datasetName suffix encode maxExamples rest sd'
        (evs ++ [.shardWrite (buildSplitFilenames datasetName suffix sg.split_info_list)
          (generatorFn encode maxExamples sg.examples)])

/-- `download_and_prepare` (lines 179-240) composed with
`GeneratorBasedBuilder._download_and_prepare` (lines 625-670): reuse the
existing dataset when present under `REUSE_DATASET_IF_EXISTS`; fail with the
overwrite `ValueError` when it exists under any other mode; otherwise create
the temporary directory, run `_download_and_prepare` (which starts with
`makedirs`), and write the dataset info.  The result pairs the emitted events
with either the error or the split dict visible after the call
(`update_splits_if_different`: the newly computed splits win; on reuse the
persisted splits are untouched). -/
def download_and_prepare {α β : Type} (fs : FS) (name : String)
    (dataDir : List String) (infoVersion : Version) (mode : GenerateMode)
    (maxExamples : Option Nat) (suffix : String) (encode : α → β)
    (persistedSplits : SplitDict) (gens : List (SplitGeneratorM α)) :
    List (DapEvent β) × Except BuildError SplitDict :=
  let dataExists := fs.existsDir dataDir
  if dataExists && (mode == GenerateMode.REUSE_DATASET_IF_EXISTS) then
    ([], .ok persistedSplits)
  else if dataExists then
    ([], .error (.overwrite name dataDir infoVersion))
  else
    match downloadAndPrepareInner name suffix encode maxExamples gens []
        [DapEvent.makedirs dataDir] with
    | (evs, .ok sd) => (DapEvent.tempDirCreated :: evs ++ [DapEvent.metadataWrite], .ok sd)
    | (evs, .error e) => (DapEvent.tempDirCreated :: evs, .error e)

/-- The shard-write events produced by a list of units that all pass the
reserved-name check (used to state what has already been written when a later
unit fails). -/
def shardWriteEvents {α β : Type} (datasetName suffix : String) (encode : α → β)
    (maxExamples : Option Nat) (gens : List (SplitGeneratorM α)) : List (DapEvent β) :=
  gens.map (fun g =>
    DapEvent.shardWrite (buildSplitFilenames datasetName suffix g.split_info_list)
      (generatorFn encode maxExamples g.examples))

/-! ## Lemmas: decimal digits -/

theorem digitChar_digit (d : Nat) (h : d < 10) :
    isDigitChar (digitChar d) = true ∧ digitVal (digitChar d) = d := by
  interval_cases d <;> exact ⟨by decide, by decide⟩

theorem natToDigitsAux_all_digits (fuel n : Nat) :
    ∀ c ∈ natToDigitsAux fuel n, isDigitChar c = true := by
  induction fuel generalizing n with
  | zero => intro c hc; simp [natToDigitsAux] at hc
  | succ fuel ih =>
    intro c hc
    simp only [natToDigitsAux] at hc
    split at hc
    · rename_i h10
      simp only [List.mem_singleton] at hc
      subst hc
      exact (digitChar_digit n h10).1
    · rename_i h10
      rcases List.mem_append.mp hc with h | h
      · exact ih (n / 10) c h
      · simp only [List.mem_singleton] at h
        subst h
        exact (digitChar_digit (n % 10) (Nat.mod_lt _ (by omega))).1

theorem natToDigits_all_digits (n : Nat) :
    ∀ c ∈ natToDigits n, isDigitChar c = true :=
  natToDigitsAux_all_digits (n + 1) n

theorem space_not_mem_natToDigits (n : Nat) : ' ' ∉ natToDigits n := by
  intro h
  have := natToDigits_all_digits n ' ' h
  simp [isDigitChar] at this

theorem newline_not_mem_natToDigits (n : Nat) : '\n' ∉ natToDigits n := by
  intro h
  have := natToDigits_all_digits n '\n' h
  simp [isDigitChar] at this

theorem parseDigits_append (xs ys : List Char) (a : Nat) :
    parseDigits (xs ++ ys) a =
      match parseDigits xs a with
      | some b => parseDigits ys b
      | none => none := by
  induction xs generalizing a with
  | nil => simp [parseDigits]
  | cons c cs ih =>
    simp only [List.cons_append, parseDigits]
    split
    · exact ih _
    · rfl

theorem natToDigitsAux_ne_nil (fuel n : Nat) (h : n < fuel) :
    natToDigitsAux fuel n ≠ [] := by
  cases fuel with
  | zero => omega
  | succ fuel =>
    simp only [natToDigitsAux]
    split
    · simp
    · simp

theorem parseDigits_natToDigitsAux (fuel : Nat) :
    ∀ n a, n < fuel →
      parseDigits (natToDigitsAux fuel n) a =
        some (a * 10 ^ (natToDigitsAux fuel n).length + n) := by
  induction fuel with
  | zero => intro n a h; omega
  | succ fuel ih =>
    intro n a h
    simp only [natToDigitsAux]
    split
    · rename_i h10
      obtain ⟨hd, hv⟩ := digitChar_digit n h10
      simp [parseDigits, hd, hv]
    · rename_i h10
      have hlt : n / 10 < fuel := by
        rcases Nat.lt_or_ge n (fuel * 10) with hc | hc
        · exact Nat.div_lt_of_lt_mul (by omega)
        · exfalso
          have : fuel * 10 ≤ n := hc
          omega
      rw [parseDigits_append]
      rw [ih (n / 10) a hlt]
      obtain ⟨hd, hv⟩ := digitChar_digit (n % 10) (Nat.mod_lt _ (by omega))
      simp only [parseDigits, hd, if_pos, hv]
      rw [List.length_append]
      simp only [List.length_singleton]
      rw [pow_succ]
      have := Nat.div_add_mod n 10
      congr 1
      ring_nf
      omega

theorem parsePyNat_natToDigits (n : Nat) : parsePyNat (natToDigits n) = some n := by
  unfold parsePyNat
  rw [if_neg]
  · rw [natToDigits, parseDigits_natToDigitsAux (n + 1) n 0 (by omega)]
    simp
  · simp only [List.isEmpty_iff]
    exact natToDigitsAux_ne_nil (n + 1) n (by omega)

/-! ## Lemmas: splitting -/

theorem splitFirst_not_mem (c : Char) (l : List Char) (h : c ∉ l) :
    splitFirst c l = none := by
  induction l with
  | nil => rfl
  | cons x xs ih =>
    simp only [List.mem_cons, not_or] at h
    simp [splitFirst, Ne.symm h.1, h.1, ih h.2]

theorem splitFirst_append (c : Char) (xs ys : List Char) (h : c ∉ xs) :
    splitFirst c (xs ++ c :: ys) = some (xs, ys) := by
  induction xs with
  | nil => simp [splitFirst]
  | cons x l ih =>
    simp only [List.mem_cons, not_or] at h
    simp [splitFirst, Ne.symm h.1, ih h.2]

theorem rsplitLast_append (c : Char) (xs zs : List Char) (h : c ∉ zs) :
    rsplitLast c (xs ++ c :: zs) = some (xs, zs) := by
  unfold rsplitLast
  have : (xs ++ c :: zs).reverse = zs.reverse ++ c :: xs.reverse := by
    simp
  rw [this, splitFirst_append c _ _ (by simpa using h)]
  simp

theorem rsplit2Space_entryLineCore (url : Url) (n : Nat) (ck : List Char)
    (hck : ' ' ∉ ck) :
    rsplit2Space (entryLineCore url n ck) = some (url, natToDigits n, ck) := by
  have h1 : url ++ ' ' :: natToDigits n ++ ' ' :: ck =
      (url ++ ' ' :: natToDigits n) ++ ' ' :: ck := by simp
  simp only [rsplit2Space, entryLineCore, h1, rsplitLast_append ' ' _ _ hck,
    rsplitLast_append ' ' _ _ (space_not_mem_natToDigits n)]

theorem splitOnChar_not_mem (c : Char) (l : List Char) (h : c ∉ l) :
    splitOnChar c l = [l] := by
  induction l with
  | nil => rfl
  | cons x xs ih =>
    simp only [List.mem_cons, not_or] at h
    simp [splitOnChar, Ne.symm h.1, h.1, ih h.2]

theorem splitOnChar_append (c : Char) (xs ys : List Char) (h : c ∉ xs) :
    splitOnChar c (xs ++ c :: ys) = xs :: splitOnChar c ys := by
  induction xs with
  | nil => simp [splitOnChar]
  | cons x l ih =>
    simp only [List.mem_cons, not_or] at h
    simp only [List.cons_append, splitOnChar, List.append_eq]
    rw [if_neg (fun hh => h.1 hh.symm), ih h.2]

/-! ## Lemmas: dict operations -/

theorem dlookup_setItem (d : Checksums) (u : Url) (v : SizeChecksum) (w : Url) :
    dlookup (setItem d u v) w = if u = w then some v else dlookup d w := by
  induction d with
  | nil => rfl
  | cons p rest ih =>
    by_cases hp : p.1 = u
    · simp only [setItem, if_pos hp, dlookup]
      by_cases huw : u = w
      · simp [huw]
      · simp [huw, hp ▸ huw, dlookup]
    · simp only [setItem, if_neg hp, dlookup]
      by_cases hpw : p.1 = w
      · have huw : ¬ u = w := fun h => hp (h ▸ hpw)
        simp [hpw, huw]
      · simp [hpw, ih]

theorem mem_setItem (d : Checksums) (u : Url) (v : SizeChecksum)
    (p : Url × SizeChecksum) (h : p ∈ setItem d u v) : p ∈ d ∨ p = (u, v) := by
  induction d with
  | nil =>
    simp only [setItem, List.mem_singleton] at h
    exact Or.inr h
  | cons q rest ih =>
    simp only [setItem] at h
    split at h
    · rcases List.mem_cons.mp h with h1 | h1
      · exact Or.inr h1
      · exact Or.inl (List.mem_cons_of_mem _ h1)
    · rcases List.mem_cons.mp h with h1 | h1
      · exact Or.inl (h1 ▸ List.mem_cons_self _ _)
      · rcases ih h1 with h2 | h2
        · exact Or.inl (List.mem_cons_of_mem _ h2)
        · exact Or.inr h2

theorem not_mem_keys_dlookup (d : Checksums) (u : Url)
    (h : u ∉ d.map Prod.fst) : dlookup d u = none := by
  induction d with
  | nil => rfl
  | cons p rest ih =>
    simp only [List.map_cons, List.mem_cons, not_or] at h
    simp [dlookup, Ne.symm h.1, ih h.2]

theorem dlookup_mem (d : Checksums) (u : Url) (v : SizeChecksum)
    (h : dlookup d u = some v) : (u, v) ∈ d := by
  induction d with
  | nil => simp [dlookup] at h
  | cons p rest ih =>
    simp only [dlookup] at h
    split at h
    · rename_i hp
      have hv : p.2 = v := by injection h
      have hpv : p = (u, v) := by
        cases p
        simp only at hp hv
        simp [hp, hv]
      exact hpv ▸ List.mem_cons_self _ _
    · exact List.mem_cons_of_mem _ (ih h)

theorem mem_dlookup (d : Checksums) (u : Url) (v : SizeChecksum)
    (hd : keysNodup d) (h : (u, v) ∈ d) : dlookup d u = some v := by
  induction d with
  | nil => simp at h
  | cons p rest ih =>
    simp only [keysNodup, List.map_cons, List.nodup_cons] at hd
    rcases List.mem_cons.mp h with h1 | h1
    · simp [dlookup, ← h1]
    · have hne : p.1 ≠ u := by
        intro he
        exact hd.1 (he ▸ (List.mem_map.mpr ⟨(u, v), h1, rfl⟩))
      simp [dlookup, hne, ih hd.2 h1]

theorem keysNodup_setItem (d : Checksums) (u : Url) (v : SizeChecksum)
    (h : keysNodup d) : keysNodup (setItem d u v) := by
  induction d with
  | nil => simp [setItem, keysNodup]
  | cons p rest ih =>
    simp only [keysNodup, List.map_cons, List.nodup_cons] at h
    simp only [setItem]
    split
    · rename_i hp
      simp only [keysNodup, List.map_cons, List.nodup_cons]
      exact ⟨hp ▸ h.1, h.2⟩
    · rename_i hp
      simp only [keysNodup, List.map_cons, List.nodup_cons]
      refine ⟨?_, ih h.2⟩
      intro hmem
      rcases List.mem_map.mp hmem with ⟨q, hq, hfst⟩
      rcases mem_setItem rest u v q hq with h1 | h1
      · exact h.1 (List.mem_map.mpr ⟨q, h1, hfst⟩)
      · apply hp
        rw [h1] at hfst
        exact hfst.symm

theorem keysNodup_dictUpdate (d e : Checksums) (h : keysNodup d) :
    keysNodup (dictUpdate d e) := by
  induction e generalizing d with
  | nil => exact h
  | cons p rest ih => exact ih _ (keysNodup_setItem d p.1 p.2 h)

theorem mem_dictUpdate (d e : Checksums) (p : Url × SizeChecksum)
    (h : p ∈ dictUpdate d e) : p ∈ d ∨ p ∈ e := by
  induction e generalizing d with
  | nil => exact Or.inl h
  | cons q rest ih =>
    rcases ih _ h with h1 | h1
    · rcases mem_setItem d q.1 q.2 p h1 with h2 | h2
      · exact Or.inl h2
      · exact Or.inr (h2 ▸ List.mem_cons_self _ _)
    · exact Or.inr (List.mem_cons_of_mem _ h1)

theorem dlookup_dictUpdate (d e : Checksums) (u : Url) (he : keysNodup e) :
    dlookup (dictUpdate d e) u =
      match dlookup e u with
      | some v => some v
      | none => dlookup d u := by
  induction e generalizing d with
  | nil => rfl
  | cons p rest ih =>
    simp only [keysNodup, List.map_cons, List.nodup_cons] at he
    have step : dictUpdate d (p :: rest) = dictUpdate (setItem d p.1 p.2) rest := rfl
    rw [step, ih _ he.2]
    by_cases hp : p.1 = u
    · have hnone : dlookup rest u = none :=
        not_mem_keys_dlookup rest u (hp ▸ he.1)
      simp [dlookup, hp, hnone, dlookup_setItem]
    · simp only [dlookup, if_neg hp]
      cases hrest : dlookup rest u
      · simp [dlookup_setItem, hp]
      · rfl

theorem dictBeq_true_lookup (d1 d2 : Checksums) (h : dictBeq d1 d2 = true) :
    ∀ u, dlookup d1 u = dlookup d2 u := by
  intro u
  simp only [dictBeq, Bool.and_eq_true, List.all_eq_true, decide_eq_true_eq] at h
  cases h1 : dlookup d1 u with
  | some v => exact (h.1 (u, v) (dlookup_mem d1 u v h1)).symm
  | none =>
    cases h2 : dlookup d2 u with
    | some v =>
      have := h.2 (u, v) (dlookup_mem d2 u v h2)
      rw [h1] at this
      exact this
    | none => rfl

theorem perm_dlookup (l1 l2 : Checksums) (hperm : l1.Perm l2)
    (hnd : keysNodup l1) : ∀ u, dlookup l1 u = dlookup l2 u := by
  induction hperm with
  | nil => intro u; rfl
  | cons p h ih =>
    intro u
    simp only [keysNodup, List.map_cons, List.nodup_cons] at hnd
    simp only [dlookup]
    split
    · rfl
    · exact ih hnd.2 u
  | swap p q l =>
    intro u
    simp only [keysNodup, List.map_cons, List.nodup_cons, List.mem_cons, not_or] at hnd
    simp only [dlookup]
    by_cases h1 : q.1 = u <;> by_cases h2 : p.1 = u
    · exfalso; exact hnd.1.1 (h1.trans h2.symm)
    · simp [h1, h2]
    · simp [h1, h2]
    · simp [h1, h2]
  | trans h12 h23 ih12 ih23 =>
    intro u
    rw [ih12 hnd u]
    have hnd2 : keysNodup _ := ((h12.map Prod.fst).nodup_iff).mp hnd
    exact ih23 hnd2 u

/-! ## Lemmas: the write/parse round trip of the checksum file format -/

theorem foldl_append_flatten {α β : Type} (f : α → List β) (l : List α) :
    ∀ acc : List β, l.foldl (fun a p => a ++ f p) acc = acc ++ (l.map f).flatten := by
  induction l with
  | nil => intro acc; simp
  | cons p rest ih =>
    intro acc
    simp only [List.foldl_cons, List.map_cons, List.flatten_cons, ih, List.append_assoc]

theorem serializeChecksums_flatten (d : Checksums) :
    serializeChecksums d =
      ((List.insertionSort entryOrder d).map
        (fun p => entryLine p.1 p.2.1 p.2.2)).flatten := by
  unfold serializeChecksums
  rw [foldl_append_flatten]
  rfl

theorem splitOnChar_flatten_lines (c : Char) (ls : List (List Char))
    (h : ∀ l ∈ ls, c ∉ l) :
    splitOnChar c ((ls.map (fun l => l ++ [c])).flatten) = ls ++ [[]] := by
  induction ls with
  | nil => rfl
  | cons l rest ih =>
    simp only [List.map_cons, List.flatten_cons, List.append_assoc, List.singleton_append]
    rw [splitOnChar_append c l _ (h l (List.mem_cons_self _ _))]
    rw [ih (fun x hx => h x (List.mem_cons_of_mem _ hx))]
    rfl

theorem entryLineCore_ne_nil (url : Url) (n : Nat) (ck : List Char) :
    entryLineCore url n ck ≠ [] := by
  cases url <;> simp [entryLineCore]

theorem newline_not_mem_entryLineCore (url : Url) (n : Nat) (ck : List Char)
    (hurl : '\n' ∉ url) (hck : '\n' ∉ ck) :
    '\n' ∉ entryLineCore url n ck := by
  unfold entryLineCore
  intro hmem
  rcases List.mem_append.mp hmem with h | h
  · rcases List.mem_append.mp h with h1 | h1
    · exact hurl h1
    · rcases List.mem_cons.mp h1 with h2 | h2
      · exact absurd h2 (by decide)
      · exact newline_not_mem_natToDigits n h2
  · rcases List.mem_cons.mp h with h1 | h1
    · exact absurd h1 (by decide)
    · exact hck h1

theorem parseLinesAux_entryLines (l : Checksums) :
    ∀ acc : Checksums, (∀ p ∈ l, ' ' ∉ p.2.2) →
      parseLinesAux ((l.map (fun p => entryLineCore p.1 p.2.1 p.2.2)) ++ [[]]) acc =
        some (dictUpdate acc l) := by
  induction l with
  | nil =>
    intro acc _
    rfl
  | cons p rest ih =>
    intro acc h
    have hempty : (entryLineCore p.1 p.2.1 p.2.2).isEmpty = false := by
      rw [List.isEmpty_eq_false]
      exact entryLineCore_ne_nil _ _ _
    simp only [List.map_cons, List.cons_append, parseLinesAux, hempty, Bool.false_eq_true,
      if_false, rsplit2Space_entryLineCore p.1 p.2.1 p.2.2 (h p (List.mem_cons_self _ _)),
      parsePyNat_natToDigits]
    exact ih _ (fun q hq => h q (List.mem_cons_of_mem _ hq))

theorem parseSizesChecksums_serializeChecksums (d : Checksums)
    (hnd : keysNodup d) (hwf : wfEntries d) :
    ∃ parsed, parseSizesChecksums (serializeChecksums d) = some parsed ∧
      ∀ u, dlookup parsed u = dlookup d u := by
  have hperm : (List.insertionSort entryOrder d).Perm d := List.perm_insertionSort _ d
  have hnd' : keysNodup (List.insertionSort entryOrder d) :=
    ((hperm.map Prod.fst).nodup_iff).mpr hnd
  have hwf' : wfEntries (List.insertionSort entryOrder d) :=
    fun p hp => hwf p (hperm.mem_iff.mp hp)
  refine ⟨dictUpdate [] (List.insertionSort entryOrder d), ?_, ?_⟩
  · unfold parseSizesChecksums
    rw [serializeChecksums_flatten]
    have hline : ((List.insertionSort entryOrder d).map
        (fun p => entryLine p.1 p.2.1 p.2.2)) =
        (((List.insertionSort entryOrder d).map
          (fun p => entryLineCore p.1 p.2.1 p.2.2)).map (fun l => l ++ ['\n'])) := by
      rw [List.map_map]
      rfl
    rw [hline, splitOnChar_flatten_lines '\n' _ ?hnl]
    case hnl =>
      intro l hl
      rcases List.mem_map.mp hl with ⟨p, hp, rfl⟩
      exact newline_not_mem_entryLineCore _ _ _ (hwf' p hp).1 (hwf' p hp).2.2
    exact parseLinesAux_entryLines _ [] (fun p hp => (hwf' p hp).2.1)
  · intro u
    rw [dlookup_dictUpdate [] _ u hnd']
    rw [← perm_dlookup _ _ hperm hnd' u]
    cases hs : dlookup (List.insertionSort entryOrder d) u <;> simp [hs, dlookup]

theorem parseLinesAux_nodup (lines : List (List Char)) :
    ∀ acc d, parseLinesAux lines acc = some d → keysNodup acc → keysNodup d := by
  induction lines with
  | nil =>
    intro acc d h hacc
    injection h with h
    exact h ▸ hacc
  | cons line rest ih =>
    intro acc d h hacc
    simp only [parseLinesAux] at h
    split at h
    · exact ih _ _ h hacc
    · split at h
      · exact absurd h (by simp)
      · split at h
        · exact absurd h (by simp)
        · exact ih _ _ h (keysNodup_setItem _ _ _ hacc)

theorem parseSizesChecksums_nodup (content : List Char) (d : Checksums)
    (h : parseSizesChecksums content = some d) : keysNodup d :=
  parseLinesAux_nodup _ [] d h (by simp [keysNodup])

/-- `_get_sizes_checksums` through the memoize cache, characterized: the state
piece returned alongside the parsed dict differs from the input state only in
that the memo is now filled with the parsed dict. -/
theorem readSizesChecksumsMemo_spec (st : RegistryState) (orig : Checksums)
    (hparse : parseSizesChecksums st.fileContent = some orig)
    (hmemo : st.memoSizes = none ∨ st.memoSizes = some orig) :
    ∃ st1, readSizesChecksumsMemo st = some (orig, st1) ∧
      st1.fileContent = st.fileContent ∧
      st1.allSizeChecksums = st.allSizeChecksums ∧
      st1.registerChecksums = st.registerChecksums ∧
      st1.memoSizes = some orig := by
  rcases hmemo with hm | hm
  · refine ⟨{ st with memoSizes := some orig }, ?_, rfl, rfl, rfl, rfl⟩
    simp [readSizesChecksumsMemo, hm, hparse]
  · exact ⟨st, by simp [readSizesChecksumsMemo, hm], rfl, rfl, rfl, hm⟩

/-- The write branch of `maybe_store_checksums`: in registration mode, with
the union differing from the original content, the global dict is updated
with the new entries and the file is rewritten as the serialized union. -/
theorem maybe_store_checksums_write (st st1 : RegistryState) (entries orig : Checksums)
    (hread : readSizesChecksumsMemo st = some (orig, st1))
    (hreg1 : st1.registerChecksums = true)
    (hchange : dictBeq orig (dictUpdate orig entries) = false) :
    maybe_store_checksums st entries =
      ({ st1 with allSizeChecksums := dictUpdate st1.allSizeChecksums entries,
                  fileContent := serializeChecksums (dictUpdate orig entries) }, none) := by
  simp only [maybe_store_checksums, hread]
  simp [hchange, hreg1]

/-- C1: with registration mode off, `maybe_store_checksums` succeeds exactly
when the union of the existing file content and the new entries equals the
existing content (and is then a no-op), and in every case — success or
failure — the on-disk checksum file and the global checksum dict are left
unmodified. -/
theorem maybe_store_checksums_no_register_mode (st : RegistryState)
    (entries orig : Checksums)
    (hreg : st.registerChecksums = false)
    (hparse : parseSizesChecksums st.fileContent = some orig)
    (hmemo : st.memoSizes = none ∨ st.memoSizes = some orig) :
    (maybe_store_checksums st entries).1.fileContent = st.fileContent ∧
    (maybe_store_checksums st entries).1.allSizeChecksums = st.allSizeChecksums ∧
    ((maybe_store_checksums st entries).2 = none ↔
      dictBeq orig (dictUpdate orig entries) = true) := by
  obtain ⟨st1, hread, hfile, hall, hregeq, _⟩ :=
    readSizesChecksumsMemo_spec st orig hparse hmemo
  by_cases hbeq : dictBeq orig (dictUpdate orig entries) = true
  · have hres : maybe_store_checksums st entries = (st1, none) := by
      simp only [maybe_store_checksums, hread]
      simp [hbeq]
    rw [hres]
    exact ⟨hfile, hall, by simp [hbeq]⟩
  · have hres : maybe_store_checksums st entries =
        (st1, some "You must call set_register_checksums(True) first.") := by
      simp only [maybe_store_checksums, hread]
      simp [hbeq, hregeq, hreg]
    rw [hres]
    exact ⟨hfile, hall, by simp [hbeq]⟩

theorem maybe_store_checksums_no_register_mode_witness :
    (RegistryState.mk "u 1 a\n".data none [] false).registerChecksums = false ∧
    parseSizesChecksums (RegistryState.mk "u 1 a\n".data none [] false).fileContent =
      some [(['u'], (1, ['a']))] ∧
    ((RegistryState.mk "u 1 a\n".data none [] false).memoSizes = none ∨
      (RegistryState.mk "u 1 a\n".data none [] false).memoSizes = some [(['u'], (1, ['a']))]) ∧
    ((maybe_store_checksums (RegistryState.mk "u 1 a\n".data none [] false)
        [(['v'], (2, ['b']))]).1.fileContent =
      (RegistryState.mk "u 1 a\n".data none [] false).fileContent ∧
    (maybe_store_checksums (RegistryState.mk "u 1 a\n".data none [] false)
        [(['v'], (2, ['b']))]).1.allSizeChecksums =
      (RegistryState.mk "u 1 a\n".data none [] false).allSizeChecksums ∧
    ((maybe_store_checksums (RegistryState.mk "u 1 a\n".data none [] false)
        [(['v'], (2, ['b']))]).2 = none ↔
      dictBeq [(['u'], (1, ['a']))]
        (dictUpdate [(['u'], (1, ['a']))] [(['v'], (2, ['b']))]) = true)) :=
  ⟨rfl, by decide, Or.inl rfl,
    maybe_store_checksums_no_register_mode _ _ _ rfl (by decide) (Or.inl rfl)⟩

/-- C2: with registration mode on and content that would change,
`maybe_store_checksums` succeeds, updates the in-memory global checksum dict
with the new entries, rewrites the whole on-disk file as the union of old and
new entries rendered as sorted `URL size checksum` lines, and a second call
with the identical entries leaves the file byte-identical. -/
theorem maybe_store_checksums_register_mode (st : RegistryState)
    (entries orig : Checksums)
    (hreg : st.registerChecksums = true)
    (hparse : parseSizesChecksums st.fileContent = some orig)
    (hmemo : st.memoSizes = none ∨ st.memoSizes = some orig)
    (hchange : dictBeq orig (dictUpdate orig entries) = false) :
    (maybe_store_checksums st entries).2 = none ∧
    (maybe_store_checksums st entries).1.allSizeChecksums =
      dictUpdate st.allSizeChecksums entries ∧
    (maybe_store_checksums st entries).1.fileContent =
      serializeChecksums (dictUpdate orig entries) ∧
    (maybe_store_checksums (maybe_store_checksums st entries).1 entries).1.fileContent =
      (maybe_store_checksums st entries).1.fileContent := by
  obtain ⟨st1, hread, hfile, hall, hregeq, hmemo1⟩ :=
    readSizesChecksumsMemo_spec st orig hparse hmemo
  have hreg1 : st1.registerChecksums = true := hregeq.trans hreg
  have hres := maybe_store_checksums_write st st1 entries orig hread hreg1 hchange
  have hread2 : readSizesChecksumsMemo (maybe_store_checksums st entries).1 =
      some (orig, (maybe_store_checksums st entries).1) := by
    rw [hres]
    simp [readSizesChecksumsMemo, hmemo1]
  have hres2 := maybe_store_checksums_write _ _ entries orig hread2
    (by rw [hres]; exact hreg1) hchange
  refine ⟨by rw [hres], ?_, by rw [hres], ?_⟩
  · rw [hres]
    simpa using congrArg (fun d => dictUpdate d entries) hall
  · rw [hres2, hres]

theorem maybe_store_checksums_register_mode_witness :
    (RegistryState.mk "u 1 a\n".data none [] true).registerChecksums = true ∧
    parseSizesChecksums (RegistryState.mk "u 1 a\n".data none [] true).fileContent =
      some [(['u'], (1, ['a']))] ∧
    ((RegistryState.mk "u 1 a\n".data none [] true).memoSizes = none ∨
      (RegistryState.mk "u 1 a\n".data none [] true).memoSizes = some [(['u'], (1, ['a']))]) ∧
    dictBeq [(['u'], (1, ['a']))]
      (dictUpdate [(['u'], (1, ['a']))] [(['v'], (2, ['b']))]) = false ∧
    ((maybe_store_checksums (RegistryState.mk "u 1 a\n".data none [] true)
        [(['v'], (2, ['b']))]).2 = none ∧
    (maybe_store_checksums (RegistryState.mk "u 1 a\n".data none [] true)
        [(['v'], (2, ['b']))]).1.allSizeChecksums =
      dictUpdate (RegistryState.mk "u 1 a\n".data none [] true).allSizeChecksums
        [(['v'], (2, ['b']))] ∧
    (maybe_store_checksums (RegistryState.mk "u 1 a\n".data none [] true)
        [(['v'], (2, ['b']))]).1.fileContent =
      serializeChecksums (dictUpdate [(['u'], (1, ['a']))] [(['v'], (2, ['b']))]) ∧
    (maybe_store_checksums
        (maybe_store_checksums (RegistryState.mk "u 1 a\n".data none [] true)
          [(['v'], (2, ['b']))]).1 [(['v'], (2, ['b']))]).1.fileContent =
      (maybe_store_checksums (RegistryState.mk "u 1 a\n".data none [] true)
        [(['v'], (2, ['b']))]).1.fileContent) :=
  ⟨rfl, by decide, Or.inl rfl, by decide,
    maybe_store_checksums_register_mode _ _ _ rfl (by decide) (Or.inl rfl) (by decide)⟩

/-- C9 counterexample: a checksum containing a newline (but no space) next to
a newline-free URL satisfies the claim's hypotheses, yet the file written by
`maybe_store_checksums` in registration mode does not parse back at all:
`_get_sizes_checksums` hits a `ValueError` on the dangling second line. -/
theorem checksums_roundtrip_counterexample :
    ('\n' ∉ (['u'] : List Char)) ∧ (' ' ∉ (['a', '\n', 'b'] : List Char)) ∧
    (maybe_store_checksums (RegistryState.mk [] none [] true)
      [(['u'], (0, ['a', '\n', 'b']))]).2 = none ∧
    parseSizesChecksums
      (maybe_store_checksums (RegistryState.mk [] none [] true)
        [(['u'], (0, ['a', '\n', 'b']))]).1.fileContent = none := by
  decide

/-- C9 (amended): provided additionally that no checksum contains a newline,
writing entries with `maybe_store_checksums` in registration mode and parsing
the resulting file with `_get_sizes_checksums` yields exactly the union of
the previous file content and the written entries. -/
theorem checksums_roundtrip (st : RegistryState) (entries orig : Checksums)
    (hreg : st.registerChecksums = true)
    (hparse : parseSizesChecksums st.fileContent = some orig)
    (hmemo : st.memoSizes = none ∨ st.memoSizes = some orig)
    (horig : wfEntries orig) (hentries : wfEntries entries) :
    (maybe_store_checksums st entries).2 = none ∧
    ∃ parsed,
      parseSizesChecksums (maybe_store_checksums st entries).1.fileContent = some parsed ∧
      ∀ u, dlookup parsed u = dlookup (dictUpdate orig entries) u := by
  obtain ⟨st1, hread, hfile, hall, hregeq, hmemo1⟩ :=
    readSizesChecksumsMemo_spec st orig hparse hmemo
  by_cases hbeq : dictBeq orig (dictUpdate orig entries) = true
  · have hres : maybe_store_checksums st entries = (st1, none) := by
      simp only [maybe_store_checksums, hread]
      simp [hbeq]
    rw [hres]
    refine ⟨rfl, orig, by rw [hfile]; exact hparse, ?_⟩
    exact dictBeq_true_lookup _ _ hbeq
  · have hchange : dictBeq orig (dictUpdate orig entries) = false := by
      simp at hbeq
      exact hbeq
    have hres := maybe_store_checksums_write st st1 entries orig hread
      (hregeq.trans hreg) hchange
    rw [hres]
    have hndorig : keysNodup orig := parseSizesChecksums_nodup _ _ hparse
    have hndu : keysNodup (dictUpdate orig entries) :=
      keysNodup_dictUpdate _ _ hndorig
    have hwfu : wfEntries (dictUpdate orig entries) := by
      intro p hp
      rcases mem_dictUpdate _ _ p hp with h | h
      · exact horig p h
      · exact hentries p h
    obtain ⟨parsed, hp1, hp2⟩ :=
      parseSizesChecksums_serializeChecksums _ hndu hwfu
    exact ⟨rfl, parsed, hp1, hp2⟩

theorem checksums_roundtrip_witness :
    (RegistryState.mk "u 1 a\n".data none [] true).registerChecksums = true ∧
    parseSizesChecksums (RegistryState.mk "u 1 a\n".data none [] true).fileContent =
      some [(['u'], (1, ['a']))] ∧
    ((RegistryState.mk "u 1 a\n".data none [] true).memoSizes = none ∨
      (RegistryState.mk "u 1 a\n".data none [] true).memoSizes = some [(['u'], (1, ['a']))]) ∧
    wfEntries [(['u'], (1, ['a']))] ∧
    wfEntries [(['b', ' ', 'a'], (2, ['c']))] ∧
    ((maybe_store_checksums (RegistryState.mk "u 1 a\n".data none [] true)
        [(['b', ' ', 'a'], (2, ['c']))]).2 = none ∧
    ∃ parsed,
      parseSizesChecksums (maybe_store_checksums
        (RegistryState.mk "u 1 a\n".data none [] true)
        [(['b', ' ', 'a'], (2, ['c']))]).1.fileContent = some parsed ∧
      ∀ u, dlookup parsed u =
        dlookup (dictUpdate [(['u'], (1, ['a']))] [(['b', ' ', 'a'], (2, ['c']))]) u) :=
  ⟨rfl, by decide, Or.inl rfl, by decide, by decide,
    checksums_roundtrip _ _ _ rfl (by decide) (Or.inl rfl) (by decide) (by decide)⟩

/-! ## Lemmas: the global checksum load (`get_all_sizes_checksums`) -/

theorem findConflict_none_iff (acc data : Checksums) (hnd : keysNodup data) :
    findConflict acc data = none ↔ Compat acc data := by
  unfold findConflict
  rw [Option.map_eq_none', List.find?_eq_none]
  constructor
  · intro h u v1 v2 hacc hdata
    have hmem : (u, v2) ∈ data := dlookup_mem data u v2 hdata
    have := h (u, v2) hmem
    simp only [hacc, decide_eq_true_eq] at this
    by_contra hne
    exact this (by simpa using hne)
  · intro hc p hp
    cases ha : dlookup acc p.1 with
    | none => simp [ha]
    | some v =>
      have hd : dlookup data p.1 = some p.2 := mem_dlookup data p.1 p.2 hnd hp
      simp only [ha, Bool.not_eq_true, decide_eq_false_iff_not, not_not]
      exact hc p.1 v p.2 ha hd

theorem compat_dictUpdate (acc data f : Checksums) (hnd : keysNodup data)
    (hc : Compat acc data) :
    Compat (dictUpdate acc data) f ↔ (Compat acc f ∧ Compat data f) := by
  constructor
  · intro h
    constructor
    · intro u v1 v2 h1 h2
      cases hd : dlookup data u with
      | none =>
        have hup : dlookup (dictUpdate acc data) u = some v1 := by
          rw [dlookup_dictUpdate _ _ _ hnd]
          simp [hd, h1]
        exact h u v1 v2 hup h2
      | some w =>
        have hw : v1 = w := hc u v1 w h1 hd
        have hup : dlookup (dictUpdate acc data) u = some w := by
          rw [dlookup_dictUpdate _ _ _ hnd]
          simp [hd]
        exact hw.trans (h u w v2 hup h2)
    · intro u v1 v2 h1 h2
      have hup : dlookup (dictUpdate acc data) u = some v1 := by
        rw [dlookup_dictUpdate _ _ _ hnd]
        simp [h1]
      exact h u v1 v2 hup h2
  · rintro ⟨haf, hdf⟩ u v1 v2 h1 h2
    rw [dlookup_dictUpdate _ _ _ hnd] at h1
    cases hd : dlookup data u with
    | none =>
      simp only [hd] at h1
      exact haf u v1 v2 h1 h2
    | some w =>
      simp only [hd] at h1
      injection h1 with h1
      exact h1 ▸ hdf u w v2 hd h2

theorem gasc_ok_iff (files : List Checksums) :
    ∀ acc, (∀ f ∈ files, keysNodup f) →
      ((∃ m, get_all_sizes_checksums files acc = .ok m) ↔
        (files.Pairwise Compat ∧ ∀ f ∈ files, Compat acc f)) := by
  induction files with
  | nil =>
    intro acc _
    simp [get_all_sizes_checksums]
  | cons data rest ih =>
    intro acc hnd
    have hnddata : keysNodup data := hnd data (List.mem_cons_self _ _)
    have hndrest : ∀ f ∈ rest, keysNodup f :=
      fun f hf => hnd f (List.mem_cons_of_mem _ hf)
    constructor
    · rintro ⟨m, hm⟩
      simp only [get_all_sizes_checksums] at hm
      cases hconf : findConflict acc data with
      | some u =>
        rw [hconf] at hm
        exact absurd hm (by simp)
      | none =>
        rw [hconf] at hm
        have hcompat : Compat acc data :=
          (findConflict_none_iff acc data hnddata).mp hconf
        obtain ⟨hpw, hcc⟩ := (ih _ hndrest).mp ⟨m, hm⟩
        refine ⟨List.Pairwise.cons ?_ hpw, ?_⟩
        · intro f hf
          exact ((compat_dictUpdate acc data f hnddata hcompat).mp (hcc f hf)).2
        · intro f hf
          rcases List.mem_cons.mp hf with rfl | hf'
          · exact hcompat
          · exact ((compat_dictUpdate acc data f hnddata hcompat).mp (hcc f hf')).1
    · rintro ⟨hpw, hcc⟩
      have hcompat : Compat acc data := hcc data (List.mem_cons_self _ _)
      have hconf : findConflict acc data = none :=
        (findConflict_none_iff acc data hnddata).mpr hcompat
      simp only [get_all_sizes_checksums, hconf]
      apply (ih _ hndrest).mpr
      rcases List.pairwise_cons.mp hpw with ⟨hdf, hpw'⟩
      refine ⟨hpw', fun f hf => ?_⟩
      exact (compat_dictUpdate acc data f hnddata hcompat).mpr
        ⟨hcc f (List.mem_cons_of_mem _ hf), hdf f hf⟩

theorem gasc_ok_lookup (files : List Checksums) :
    ∀ acc m, (∀ f ∈ files, keysNodup f) →
      get_all_sizes_checksums files acc = .ok m →
      ∀ u v, dlookup m u = some v ↔
        ((∃ f ∈ files, dlookup f u = some v) ∨ dlookup acc u = some v) := by
  induction files with
  | nil =>
    intro acc m _ hm u v
    simp only [get_all_sizes_checksums] at hm
    injection hm with hm
    subst hm
    simp
  | cons data rest ih =>
    intro acc m hnd hm u v
    have hnddata : keysNodup data := hnd data (List.mem_cons_self _ _)
    have hndrest : ∀ f ∈ rest, keysNodup f :=
      fun f hf => hnd f (List.mem_cons_of_mem _ hf)
    simp only [get_all_sizes_checksums] at hm
    cases hconf : findConflict acc data with
    | some w =>
      rw [hconf] at hm
      exact absurd hm (by simp)
    | none =>
      rw [hconf] at hm
      have hcompat : Compat acc data :=
        (findConflict_none_iff acc data hnddata).mp hconf
      rw [ih _ m hndrest hm u v, dlookup_dictUpdate _ _ _ hnddata]
      cases hd : dlookup data u with
      | some w =>
        simp only []
        constructor
        · rintro (⟨f, hf, hfv⟩ | hv)
          · exact Or.inl ⟨f, List.mem_cons_of_mem _ hf, hfv⟩
          · exact Or.inl ⟨data, List.mem_cons_self _ _, hd.trans hv⟩
        · rintro (⟨f, hf, hfv⟩ | hv)
          · rcases List.mem_cons.mp hf with rfl | hf'
            · exact Or.inr (hd.symm.trans hfv)
            · exact Or.inl ⟨f, hf', hfv⟩
          · have : v = w := hcompat u v w hv hd
            exact Or.inr (by rw [this])
      | none =>
        simp only []
        constructor
        · rintro (⟨f, hf, hfv⟩ | hv)
          · exact Or.inl ⟨f, List.mem_cons_of_mem _ hf, hfv⟩
          · exact Or.inr hv
        · rintro (⟨f, hf, hfv⟩ | hv)
          · rcases List.mem_cons.mp hf with rfl | hf'
            · exact absurd (hd.symm.trans hfv) (by simp)
            · exact Or.inl ⟨f, hf', hfv⟩
          · exact Or.inr hv

theorem compat_symmetric : Symmetric Compat := by
  intro a b hab u x y hx hy
  exact (hab u y x hy hx).symm

theorem compat_refl (f : Checksums) : Compat f f := by
  intro u x y hx hy
  rw [hx] at hy
  injection hy

/-- C3: `get_all_sizes_checksums` over the parsed per-dataset checksum files
(fresh global dict) succeeds exactly when no URL is registered with two
distinct (size, checksum) tuples across the files, and on success returns the
merged mapping: a URL maps to `v` in the result iff some dataset's file maps
it to `v`. -/
theorem get_all_sizes_checksums_correct (files : List Checksums)
    (hnd : ∀ f ∈ files, keysNodup f) :
    ((∃ m, get_all_sizes_checksums files [] = .ok m) ↔
      ¬ ∃ u v1 v2, (∃ f1 ∈ files, dlookup f1 u = some v1) ∧
        (∃ f2 ∈ files, dlookup f2 u = some v2) ∧ v1 ≠ v2) ∧
    ∀ m, get_all_sizes_checksums files [] = .ok m →
      ∀ u v, dlookup m u = some v ↔ ∃ f ∈ files, dlookup f u = some v := by
  constructor
  · rw [gasc_ok_iff files [] hnd]
    have hacc : ∀ f ∈ files, Compat [] f := by
      intro f _ u v1 v2 h1 _
      simp [dlookup] at h1
    constructor
    · rintro ⟨hpw, -⟩ ⟨u, v1, v2, ⟨f1, hf1, h1⟩, ⟨f2, hf2, h2⟩, hne⟩
      have hco : Compat f1 f2 := by
        by_cases heq : f1 = f2
        · exact heq ▸ compat_refl f1
        · exact hpw.forall compat_symmetric hf1 hf2 heq
      exact hne (hco u v1 v2 h1 h2)
    · intro hno
      refine ⟨?_, hacc⟩
      apply List.pairwise_of_forall_mem_list
      intro a ha b hb u v1 v2 h1 h2
      by_contra hne
      exact hno ⟨u, v1, v2, ⟨a, ha, h1⟩, ⟨b, hb, h2⟩, hne⟩
  · intro m hm u v
    rw [gasc_ok_lookup files [] m hnd hm u v]
    simp [dlookup]

theorem get_all_sizes_checksums_correct_witness :
    (∀ f ∈ [[(['u'], ((1 : Nat), ['a']))], [(['u'], ((1 : Nat), ['a'])), (['v'], ((2 : Nat), ['b']))]],
      keysNodup f) ∧
    (((∃ m, get_all_sizes_checksums
        [[(['u'], ((1 : Nat), ['a']))], [(['u'], ((1 : Nat), ['a'])), (['v'], ((2 : Nat), ['b']))]] []
        = .ok m) ↔
      ¬ ∃ u v1 v2,
        (∃ f1 ∈ [[(['u'], ((1 : Nat), ['a']))], [(['u'], ((1 : Nat), ['a'])), (['v'], ((2 : Nat), ['b']))]],
          dlookup f1 u = some v1) ∧
        (∃ f2 ∈ [[(['u'], ((1 : Nat), ['a']))], [(['u'], ((1 : Nat), ['a'])), (['v'], ((2 : Nat), ['b']))]],
          dlookup f2 u = some v2) ∧ v1 ≠ v2) ∧
    ∀ m, get_all_sizes_checksums
        [[(['u'], ((1 : Nat), ['a']))], [(['u'], ((1 : Nat), ['a'])), (['v'], ((2 : Nat), ['b']))]] []
        = .ok m →
      ∀ u v, dlookup m u = some v ↔
        ∃ f ∈ [[(['u'], ((1 : Nat), ['a']))], [(['u'], ((1 : Nat), ['a'])), (['v'], ((2 : Nat), ['b']))]],
          dlookup f u = some v) :=
  ⟨by decide, get_all_sizes_checksums_correct _ (by decide)⟩

/-! ## Lemmas: versions and `_build_data_dir` -/

theorem versionLe_refl (a : Version) : versionLe a a = true := by
  simp [versionLe]

theorem versionLe_total (a b : Version) :
    versionLe a b = true ∨ versionLe b a = true := by
  simp only [versionLe, Bool.or_eq_true, Bool.and_eq_true, decide_eq_true_eq]
  omega

theorem versionLe_trans (a b c : Version) (hab : versionLe a b = true)
    (hbc : versionLe b c = true) : versionLe a c = true := by
  simp only [versionLe, Bool.or_eq_true, Bool.and_eq_true, decide_eq_true_eq] at *
  omega

theorem versionLe_antisymm (a b : Version) (hab : versionLe a b = true)
    (hba : versionLe b a = true) : a = b := by
  cases a with
  | mk a1 a2 a3 =>
    cases b with
    | mk b1 b2 b3 =>
      simp only [versionLe, Bool.or_eq_true, Bool.and_eq_true,
        decide_eq_true_eq] at hab hba
      simp only [Version.mk.injEq]
      omega

instance : IsTotal (Version × String) versionDesc :=
  ⟨fun a b => (versionLe_total b.1 a.1).elim Or.inl Or.inr⟩

instance : IsTrans (Version × String) versionDesc :=
  ⟨fun _ _ _ hab hbc => versionLe_trans _ _ _ hbc hab⟩

/-- C7 counterexample: with declared version 2.0.0 and sibling directories
`1.0.0` and `2.0.0` on disk, the sibling `1.0.0` parses as a version different
from the declared one, yet `_build_data_dir` emits no warning, because only
the largest on-disk version is compared against the declared one. -/
theorem build_data_dir_counterexample :
    parseVersion "1.0.0" = some ⟨1, 0, 0⟩ ∧
    (⟨1, 0, 0⟩ : Version) ≠ ⟨2, 0, 0⟩ ∧
    "1.0.0" ∈ ["1.0.0", "2.0.0"] ∧
    (build_data_dir ["root"] "ds" none ⟨2, 0, 0⟩ (some ["1.0.0", "2.0.0"])).2 = none := by
  refine ⟨by decide, by decide, by decide, rfl⟩

/-- C7 (amended): `_build_data_dir` returns
`root/dataset_name[/config_name]/version`; it emits a warning naming a
conflicting version exactly when the largest version parsed from the sibling
directory listing differs from the declared one (sibling names that do not
parse as versions are silently skipped, and the resolution never fails). -/
theorem build_data_dir_spec (root : List String) (name : String)
    (config : Option String) (version : Version) (listing : Option (List String)) :
    (build_data_dir root name config version listing).1 =
      root ++ name :: configDirs config ++ [versionString version] ∧
    ∀ o v', (build_data_dir root name config version listing).2 = some (o, v') ↔
      (v' = version ∧ o ≠ version ∧
        (∃ d ∈ listing.getD [], parseVersion d = some o) ∧
        ∀ d ∈ listing.getD [], ∀ p, parseVersion d = some p → versionLe p o = true) := by
  set l := (listing.getD []).filterMap (fun d => (parseVersion d).map (fun v => (v, d)))
    with hl
  have hperm : (List.insertionSort versionDesc l).Perm l := List.perm_insertionSort _ _
  have hsorted := List.sorted_insertionSort versionDesc l
  have hmem_iff : ∀ q : Version × String,
      q ∈ l ↔ q.2 ∈ listing.getD [] ∧ parseVersion q.2 = some q.1 := by
    intro q
    rw [hl, List.mem_filterMap]
    constructor
    · rintro ⟨d, hd, hq⟩
      rcases Option.map_eq_some'.mp hq with ⟨v, hv, hq⟩
      cases hq
      exact ⟨hd, hv⟩
    · rintro ⟨hd, hv⟩
      exact ⟨q.2, hd, by rw [hv]; rfl⟩
  have hgoal : build_data_dir root name config version listing =
      (root ++ name :: configDirs config ++ [versionString version],
        otherVersionsWarning version (List.insertionSort versionDesc l)) := by
    simp [build_data_dir, ← hl]
  refine ⟨by rw [hgoal], ?_⟩
  intro o v'
  rw [hgoal]
  cases hs : List.insertionSort versionDesc l with
  | nil =>
    simp only [otherVersionsWarning]
    constructor
    · intro h
      exact absurd h (by simp)
    · rintro ⟨-, -, ⟨d, hd, hp⟩, -⟩
      have hmem : ((o, d) : Version × String) ∈ l := (hmem_iff (o, d)).mpr ⟨hd, hp⟩
      rw [← hperm.mem_iff, hs] at hmem
      simp at hmem
  | cons q tl =>
    obtain ⟨h0, d0⟩ := q
    rw [hs] at hperm hsorted
    have hhead : ((h0, d0) : Version × String) ∈ l :=
      hperm.mem_iff.mp (List.mem_cons_self _ _)
    have hhead_listing := (hmem_iff (h0, d0)).mp hhead
    have hhead_max : ∀ d ∈ listing.getD [], ∀ p, parseVersion d = some p →
        versionLe p h0 = true := by
      intro d hd p hp
      have hmem : ((p, d) : Version × String) ∈ l := (hmem_iff (p, d)).mpr ⟨hd, hp⟩
      rw [← hperm.mem_iff] at hmem
      rcases List.mem_cons.mp hmem with heq | hmem'
      · cases heq
        exact versionLe_refl _
      · exact List.rel_of_sorted_cons hsorted _ hmem'
    simp only [otherVersionsWarning]
    by_cases hne : h0 = version
    · rw [if_neg (by simp [hne])]
      constructor
      · intro h
        exact absurd h (by simp)
      · rintro ⟨rfl, hone, ⟨d, hd, hp⟩, hmax⟩
        exfalso
        have h1 : versionLe o h0 = true := hhead_max d hd o hp
        have h2 : versionLe h0 o = true :=
          hmax d0 hhead_listing.1 h0 hhead_listing.2
        exact hone ((versionLe_antisymm h0 o h2 h1).symm.trans hne)
    · rw [if_pos hne]
      constructor
      · intro h
        injection h with h
        injection h with ha hb
        subst ha
        subst hb
        exact ⟨rfl, hne, ⟨d0, hhead_listing.1, hhead_listing.2⟩, hhead_max⟩
      · rintro ⟨rfl, hone, ⟨d, hd, hp⟩, hmax⟩
        have h1 : versionLe o h0 = true := hhead_max d hd o hp
        have h2 : versionLe h0 o = true :=
          hmax d0 hhead_listing.1 h0 hhead_listing.2
        rw [versionLe_antisymm h0 o h2 h1]

/-! ## Lemmas: `download_and_prepare` -/

/-- C5: when the versioned data directory already exists and the download mode
is `REUSE_DATASET_IF_EXISTS`, `download_and_prepare` returns immediately: no
event is emitted (no temp directory, no makedirs, no shard write, no metadata
write) and the persisted split dict is returned unchanged. -/
theorem download_and_prepare_reuse {α β : Type} (fs : FS) (name : String)
    (dataDir : List String) (infoVersion : Version) (maxExamples : Option Nat)
    (suffix : String) (encode : α → β) (persisted : SplitDict)
    (gens : List (SplitGeneratorM α))
    (hex : fs.existsDir dataDir = true) :
    download_and_prepare fs name dataDir infoVersion
        GenerateMode.REUSE_DATASET_IF_EXISTS maxExamples suffix encode persisted gens =
      ([], .ok persisted) := by
  simp [download_and_prepare, hex]

theorem download_and_prepare_reuse_witness :
    (FS.mk [["root", "ds", "1.0.0"]]).existsDir ["root", "ds", "1.0.0"] = true ∧
    download_and_prepare (FS.mk [["root", "ds", "1.0.0"]]) "ds" ["root", "ds", "1.0.0"]
        ⟨1, 0, 0⟩ GenerateMode.REUSE_DATASET_IF_EXISTS none "tfrecord"
        (fun n : Nat => n * 2) [⟨"train", 3⟩] [⟨[⟨"train", 1⟩], [5]⟩] =
      ([], .ok [⟨"train", 3⟩]) :=
  ⟨rfl, download_and_prepare_reuse _ _ _ _ _ _ _ _ _ rfl⟩

/-- C4 counterexample: the data root holds a complete dataset directory of
version 1.0.0 while the code declares 2.0.0.  `_build_data_dir` resolves to
the 2.0.0 path and only warns about the conflicting 1.0.0; since the declared
version's own directory does not exist, `download_and_prepare` raises no
overwrite error in any mode — it proceeds and builds. -/
theorem download_and_prepare_overwrite_counterexample :
    (FS.mk [["root", "ds", "1.0.0"]]).existsDir ["root", "ds", "1.0.0"] = true ∧
    build_data_dir ["root"] "ds" none ⟨2, 0, 0⟩ (some ["1.0.0"]) =
      (["root", "ds", "2.0.0"], some (⟨1, 0, 0⟩, ⟨2, 0, 0⟩)) ∧
    (download_and_prepare (FS.mk [["root", "ds", "1.0.0"]]) "ds" ["root", "ds", "2.0.0"]
      ⟨2, 0, 0⟩ GenerateMode.REUSE_DATASET_IF_EXISTS none "tfrecord"
      (fun n : Nat => n * 2) [] [⟨[⟨"train", 1⟩], [5]⟩]).2 = .ok [⟨"train", 1⟩] ∧
    (download_and_prepare (FS.mk [["root", "ds", "1.0.0"]]) "ds" ["root", "ds", "2.0.0"]
      ⟨2, 0, 0⟩ GenerateMode.FORCE_REDOWNLOAD none "tfrecord"
      (fun n : Nat => n * 2) [] [⟨[⟨"train", 1⟩], [5]⟩]).2 = .ok [⟨"train", 1⟩] :=
  ⟨rfl, rfl, rfl, rfl⟩

/-- C4 (amended): the overwrite error fires exactly when the declared
version's own data directory already exists and the mode is not
`REUSE_DATASET_IF_EXISTS`; it names the dataset, the data directory (which
embeds the declared version) and the restored on-disk version, and instructs
the caller to update the version.  A complete dataset of a *different*
version elsewhere in the root only produces a construction-time warning and
the build proceeds. -/
theorem download_and_prepare_overwrite {α β : Type} (fs : FS) (name : String)
    (dataDir : List String) (infoVersion : Version) (mode : GenerateMode)
    (maxExamples : Option Nat) (suffix : String) (encode : α → β)
    (persisted : SplitDict) (gens : List (SplitGeneratorM α))
    (hex : fs.existsDir dataDir = true)
    (hmode : mode ≠ GenerateMode.REUSE_DATASET_IF_EXISTS) :
    download_and_prepare fs name dataDir infoVersion mode maxExamples suffix
        encode persisted gens =
      ([], .error (.overwrite name dataDir infoVersion)) := by
  have hbeq : (mode == GenerateMode.REUSE_DATASET_IF_EXISTS) = false := by
    rw [beq_eq_false_iff_ne]
    exact hmode
  simp [download_and_prepare, hex, hbeq]

theorem download_and_prepare_overwrite_witness :
    (FS.mk [["root", "ds", "1.0.0"]]).existsDir ["root", "ds", "1.0.0"] = true ∧
    GenerateMode.FORCE_REDOWNLOAD ≠ GenerateMode.REUSE_DATASET_IF_EXISTS ∧
    download_and_prepare (FS.mk [["root", "ds", "1.0.0"]]) "ds" ["root", "ds", "1.0.0"]
        ⟨1, 0, 0⟩ GenerateMode.FORCE_REDOWNLOAD none "tfrecord"
        (fun n : Nat => n * 2) [] [⟨[⟨"train", 1⟩], [5]⟩] =
      ([], .error (.overwrite "ds" ["root", "ds", "1.0.0"] ⟨1, 0, 0⟩)) :=
  ⟨rfl, by decide, download_and_prepare_overwrite _ _ _ _ _ _ _ _ _ _ rfl (by decide)⟩

theorem checkAndAddSplits_error (l : List SplitInfo)
    (h : ∃ s ∈ l, s.name = ALL_SPLIT) :
    ∀ sd, checkAndAddSplits sd l = .error .reservedSplit := by
  induction l with
  | nil =>
    rcases h with ⟨s, hs, -⟩
    simp at hs
  | cons s rest ih =>
    intro sd
    by_cases hname : s.name = ALL_SPLIT
    · simp [checkAndAddSplits, hname]
    · rcases h with ⟨t, ht, hall⟩
      rcases List.mem_cons.mp ht with rfl | ht'
      · exact absurd hall hname
      · simp only [checkAndAddSplits, if_neg hname]
        exact ih ⟨t, ht', hall⟩ _

theorem checkAndAddSplits_ok (l : List SplitInfo)
    (h : ∀ s ∈ l, s.name ≠ ALL_SPLIT) :
    ∀ sd, ∃ sd', checkAndAddSplits sd l = .ok sd' := by
  induction l with
  | nil =>
    intro sd
    exact ⟨sd, rfl⟩
  | cons s rest ih =>
    intro sd
    have hname := h s (List.mem_cons_self _ _)
    simp only [checkAndAddSplits, if_neg hname]
    exact ih (fun t ht => h t (List.mem_cons_of_mem _ ht)) _

theorem downloadAndPrepareInner_reserved {α β : Type} (datasetName suffix : String)
    (encode : α → β) (maxExamples : Option Nat) (pre : List (SplitGeneratorM α))
    (sg : SplitGeneratorM α) (rest : List (SplitGeneratorM α))
    (hpre : ∀ g ∈ pre, ∀ s ∈ g.split_info_list, s.name ≠ ALL_SPLIT)
    (hsg : ∃ s ∈ sg.split_info_list, s.name = ALL_SPLIT) :
    ∀ sd evs, downloadAndPrepareInner datasetName suffix encode maxExamples
        (pre ++ sg :: rest) sd evs =
      (evs ++ shardWriteEvents datasetName suffix encode maxExamples pre,
        .error .reservedSplit) := by
  induction pre with
  | nil =>
    intro sd evs
    simp only [List.nil_append, downloadAndPrepareInner,
      checkAndAddSplits_error _ hsg sd]
    simp [shardWriteEvents]
  | cons g gs ih =>
    intro sd evs
    obtain ⟨sd', hsd'⟩ := checkAndAddSplits_ok g.split_info_list
      (hpre g (List.mem_cons_self _ _)) sd
    simp only [List.cons_append, downloadAndPrepareInner, hsd', List.append_eq]
    rw [ih (fun g' hg' => hpre g' (List.mem_cons_of_mem _ hg')) sd' _]
    simp [shardWriteEvents]

/-- C6 counterexample: a build whose second split generator declares the
reserved `all` split fails, but only after the data directory has been
created (`makedirs` event) and the first generator's shards have been written
(`shardWrite` event) — not before any I/O. -/
theorem reserved_split_counterexample :
    (download_and_prepare (FS.mk []) "ds" ["root", "ds", "1.0.0"] ⟨1, 0, 0⟩
      GenerateMode.REUSE_DATASET_IF_EXISTS none "tfrecord" (fun n : Nat => n * 2) []
      [⟨[⟨"train", 1⟩], [5]⟩, ⟨[⟨"all", 1⟩], [6]⟩]).2 = .error .reservedSplit ∧
    DapEvent.makedirs ["root", "ds", "1.0.0"] ∈
      (download_and_prepare (FS.mk []) "ds" ["root", "ds", "1.0.0"] ⟨1, 0, 0⟩
        GenerateMode.REUSE_DATASET_IF_EXISTS none "tfrecord" (fun n : Nat => n * 2) []
        [⟨[⟨"train", 1⟩], [5]⟩, ⟨[⟨"all", 1⟩], [6]⟩]).1 ∧
    DapEvent.shardWrite (buildSplitFilenames "ds" "tfrecord" [⟨"train", 1⟩]) [10] ∈
      (download_and_prepare (FS.mk []) "ds" ["root", "ds", "1.0.0"] ⟨1, 0, 0⟩
        GenerateMode.REUSE_DATASET_IF_EXISTS none "tfrecord" (fun n : Nat => n * 2) []
        [⟨[⟨"train", 1⟩], [5]⟩, ⟨[⟨"all", 1⟩], [6]⟩]).1 :=
  ⟨rfl, by decide, by decide⟩

/-- C6 (amended): declaring the reserved `all` alias in some split generator
makes the build fail with the reserved-name error before that generator's
shards are written, but only after the data directory has been created and
after every earlier generator's shards have been written. -/
theorem download_and_prepare_reserved {α β : Type} (fs : FS) (name : String)
    (dataDir : List String) (infoVersion : Version) (mode : GenerateMode)
    (maxExamples : Option Nat) (suffix : String) (encode : α → β)
    (persisted : SplitDict) (pre : List (SplitGeneratorM α))
    (sg : SplitGeneratorM α) (rest : List (SplitGeneratorM α))
    (hex : fs.existsDir dataDir = false)
    (hpre : ∀ g ∈ pre, ∀ s ∈ g.split_info_list, s.name ≠ ALL_SPLIT)
    (hsg : ∃ s ∈ sg.split_info_list, s.name = ALL_SPLIT) :
    download_and_prepare fs name dataDir infoVersion mode maxExamples suffix
        encode persisted (pre ++ sg :: rest) =
      (DapEvent.tempDirCreated :: DapEvent.makedirs dataDir ::
        shardWriteEvents name suffix encode maxExamples pre,
       .error .reservedSplit) := by
  have hinner := downloadAndPrepareInner_reserved name suffix encode maxExamples
    pre sg rest hpre hsg [] [DapEvent.makedirs dataDir]
  simp [download_and_prepare, hex, hinner]

theorem download_and_prepare_reserved_witness :
    (FS.mk []).existsDir ["root", "ds", "1.0.0"] = false ∧
    (∀ g ∈ [(⟨[⟨"train", 1⟩], [5]⟩ : SplitGeneratorM Nat)],
      ∀ s ∈ g.split_info_list, s.name ≠ ALL_SPLIT) ∧
    (∃ s ∈ (⟨[⟨"all", 1⟩], [6]⟩ : SplitGeneratorM Nat).split_info_list,
      s.name = ALL_SPLIT) ∧
    download_and_prepare (FS.mk []) "ds" ["root", "ds", "1.0.0"] ⟨1, 0, 0⟩
        GenerateMode.FORCE_REDOWNLOAD none "tfrecord" (fun n : Nat => n * 2) []
        ([(⟨[⟨"train", 1⟩], [5]⟩ : SplitGeneratorM Nat)] ++
          (⟨[⟨"all", 1⟩], [6]⟩ : SplitGeneratorM Nat) :: []) =
      (DapEvent.tempDirCreated :: DapEvent.makedirs ["root", "ds", "1.0.0"] ::
        shardWriteEvents "ds" "tfrecord" (fun n : Nat => n * 2) none
          [⟨[⟨"train", 1⟩], [5]⟩],
       .error .reservedSplit) :=
  ⟨rfl, by decide, by decide,
    download_and_prepare_reserved _ _ _ _ _ _ _ _ _ _ _ _ rfl (by decide) (by decide)⟩

/-! ## Lemmas: the example cap of the generation pipeline -/

theorem generatorFnAux_cap {α β : Type} (encode : α → β) (n : Nat) (hn : 0 < n) :
    ∀ (examples : List α) (i : Nat),
      generatorFnAux encode (some n) i examples = (examples.take (n - i)).map encode := by
  intro examples
  induction examples with
  | nil =>
    intro i
    simp [generatorFnAux]
  | cons ex rest ih =>
    intro i
    simp only [generatorFnAux]
    by_cases hi : i ≥ n
    · rw [if_pos]
      · have h0 : n - i = 0 := by omega
        simp [h0]
      · simp only [pyTruthyNat, Option.getD_some, Bool.and_eq_true, ne_eq,
          bne_iff_ne, decide_eq_true_eq]
        exact ⟨by omega, hi⟩
    · rw [if_neg]
      · rw [ih (i + 1)]
        have hsub : n - i = (n - (i + 1)) + 1 := by omega
        rw [hsub]
        simp
      · simp only [pyTruthyNat, Option.getD_some, Bool.and_eq_true, ne_eq,
          bne_iff_ne, decide_eq_true_eq, not_and]
        intro _
        omega

theorem downloadAndPrepareInner_ok {α β : Type} (datasetName suffix : String)
    (encode : α → β) (maxExamples : Option Nat) (gens : List (SplitGeneratorM α))
    (hvalid : ∀ g ∈ gens, ∀ s ∈ g.split_info_list, s.name ≠ ALL_SPLIT) :
    ∀ sd evs, ∃ sd', downloadAndPrepareInner datasetName suffix encode maxExamples
        gens sd evs =
      (evs ++ shardWriteEvents datasetName suffix encode maxExamples gens, .ok sd') := by
  induction gens with
  | nil =>
    intro sd evs
    exact ⟨sd, by simp [downloadAndPrepareInner, shardWriteEvents]⟩
  | cons g gs ih =>
    intro sd evs
    obtain ⟨sd1, hsd1⟩ := checkAndAddSplits_ok g.split_info_list
      (hvalid g (List.mem_cons_self _ _)) sd
    obtain ⟨sd', hsd'⟩ := ih (fun g' hg' => hvalid g' (List.mem_cons_of_mem _ hg'))
      sd1 (evs ++ [.shardWrite (buildSplitFilenames datasetName suffix g.split_info_list)
        (generatorFn encode maxExamples g.examples)])
    refine ⟨sd', ?_⟩
    simp only [downloadAndPrepareInner, hsd1]
    rw [hsd']
    simp [shardWriteEvents]

/-- C8: with a positive per-split cap `n`, the record sequence handed to the
shard writer is exactly the first `min n total` examples yielded by the
caller's generator, each encoded by the injected feature encoder, in
generator-yield order; accordingly, in a build whose generators pass the
reserved-name check, each split-generation unit's `shardWrite` event carries
exactly `(examples.take n).map encode`, one event per unit in declaration
order. -/
theorem generatorFn_positive_cap {α β : Type} (encode : α → β) (n : Nat)
    (examples : List α) (fs : FS) (name : String) (dataDir : List String)
    (infoVersion : Version) (mode : GenerateMode) (suffix : String)
    (persisted : SplitDict) (gens : List (SplitGeneratorM α))
    (hn : 0 < n)
    (hex : fs.existsDir dataDir = false)
    (hvalid : ∀ g ∈ gens, ∀ s ∈ g.split_info_list, s.name ≠ ALL_SPLIT) :
    generatorFn encode (some n) examples = (examples.take n).map encode ∧
    (generatorFn encode (some n) examples).length = min n examples.length ∧
    (download_and_prepare fs name dataDir infoVersion mode (some n) suffix encode
        persisted gens).1 =
      DapEvent.tempDirCreated :: DapEvent.makedirs dataDir ::
        gens.map (fun g => DapEvent.shardWrite
          (buildSplitFilenames name suffix g.split_info_list)
          ((g.examples.take n).map encode)) ++ [DapEvent.metadataWrite] := by
  have hgen : ∀ exs : List α,
      generatorFn encode (some n) exs = (exs.take n).map encode := by
    intro exs
    have h := generatorFnAux_cap encode n hn exs 0
    simpa using h
  obtain ⟨sd', hball⟩ := downloadAndPrepareInner_ok name suffix encode (some n)
    gens hvalid [] [DapEvent.makedirs dataDir]
  refine ⟨hgen examples, ?_, ?_⟩
  · have h := hgen examples
    rw [generatorFn] at h
    rw [generatorFn, h]
    simp [List.length_take]
  · simp [download_and_prepare, hex, hball, shardWriteEvents, hgen]

theorem generatorFn_positive_cap_witness :
    0 < 2 ∧
    (FS.mk []).existsDir ["root", "ds", "1.0.0"] = false ∧
    (∀ g ∈ [(⟨[⟨"train", 1⟩], [10, 20, 30]⟩ : SplitGeneratorM Nat)],
      ∀ s ∈ g.split_info_list, s.name ≠ ALL_SPLIT) ∧
    (generatorFn (fun n : Nat => n + 1) (some 2) [10, 20, 30] =
      ([10, 20, 30].take 2).map (fun n : Nat => n + 1) ∧
    (generatorFn (fun n : Nat => n + 1) (some 2) [10, 20, 30]).length =
      min 2 [10, 20, 30].length ∧
    (download_and_prepare (FS.mk []) "ds" ["root", "ds", "1.0.0"] ⟨1, 0, 0⟩
        GenerateMode.FORCE_REDOWNLOAD (some 2) "tfrecord" (fun n : Nat => n + 1)
        [] [(⟨[⟨"train", 1⟩], [10, 20, 30]⟩ : SplitGeneratorM Nat)]).1 =
      DapEvent.tempDirCreated :: DapEvent.makedirs ["root", "ds", "1.0.0"] ::
        [(⟨[⟨"train", 1⟩], [10, 20, 30]⟩ : SplitGeneratorM Nat)].map
          (fun g => DapEvent.shardWrite
            (buildSplitFilenames "ds" "tfrecord" g.split_info_list)
            ((g.examples.take 2).map (fun n : Nat => n + 1))) ++
        [DapEvent.metadataWrite]) :=
  ⟨by decide, rfl, by decide,
    generatorFn_positive_cap _ 2 _ _ _ _ _ _ _ _ _ (by decide) rfl (by decide)⟩

/-- C10: a `max_examples_per_split` of `0` is falsy in the cap test
`if max_examples_per_split and i >= max_examples_per_split`, so it does not
limit generation to zero examples: every yielded example is encoded and
written, exactly as when the cap is unset (`None`). -/
theorem generatorFn_zero_cap {α β : Type} (encode : α → β) (examples : List α) :
    generatorFn encode (some 0) examples = examples.map encode ∧
    generatorFn encode (some 0) examples = generatorFn encode none examples := by
  have haux : ∀ (m : Option Nat), pyTruthyNat m = false →
      ∀ (exs : List α) (i : Nat), generatorFnAux encode m i exs = exs.map encode := by
    intro m hm exs
    induction exs with
    | nil =>
      intro i
      simp [generatorFnAux]
    | cons e r ih =>
      intro i
      simp [generatorFnAux, hm, ih]
  exact ⟨haux (some 0) (by decide) examples 0,
    (haux (some 0) (by decide) examples 0).trans (haux none (by decide) examples 0).symm⟩

end Datasets

